import Mathlib

/-!
# Formlink: verification of the form-state manager against its specification

This development gives a shallow embedding of the formlink TypeScript library
(`src/form.ts`, `src/utils/form-proxy.ts`, `src/utils/deep-clone.ts`,
`src/utils/file.ts`, `src/utils/form-data.ts`, `src/utils/error-formatter.ts`,
`src/utils/field-name-validator.ts`, `src/utils/progress-tracker.ts`) and proves
or refutes the stated properties of the specification.

JavaScript runtime values that form data can hold are embedded as the inductive
`Value` below: primitives, `null`/`undefined`, `Date`/`File`/`Blob` host objects
(opaque leaves carrying only the data the library inspects), arrays and plain
objects.  `BigInt` is included as a representative of the leaf types the
multipart encoder rejects (its `typeof` is `"bigint"`, which reaches the
`default` branch of `append`).  Machine numbers are modelled as integers: no
claim under study depends on float formatting.
-/

namespace Formlink

mutual
/-- A JavaScript value as visible to the library (a `FormDataConvertible` tree). -/
inductive Value where
  | vNull
  | vUndef
  | vBool (b : Bool)
  | vNum (n : Int)
  | vStr (s : String)
  /-- A `Date`, identified by the string its `toISOString()` returns. -/
  | vDate (iso : String)
  /-- A `File`, identified by its `name` (the only attribute the library reads). -/
  | vFile (name : String)
  /-- A `Blob`, identified by an arbitrary tag. -/
  | vBlob (id : Nat)
  /-- A `BigInt` leaf (`typeof` is `"bigint"`: not an object, not serialisable by the encoder). -/
  | vBigInt (n : Int)
  | vArr (xs : ValueList)
  | vObj (fields : Fields)
deriving Repr

/-- A JavaScript array of values. -/
inductive ValueList where
  | nil
  | cons (v : Value) (tl : ValueList)
deriving Repr

/-- The own enumerable string-keyed entries of a plain object, in insertion order. -/
inductive Fields where
  | nil
  | cons (k : String) (v : Value) (tl : Fields)
deriving Repr
end

/-- `obj === null || typeof obj !== 'object'`: the guard on the first line of
`deepClone` (and elsewhere).  True for `null`, `undefined`, booleans, numbers,
strings and bigints; false for `Date`/`File`/`Blob`/arrays/objects. -/
def Value.isNonObject : Value → Bool
  | .vNull | .vUndef | .vBool _ | .vNum _ | .vStr _ | .vBigInt _ => true
  | _ => false

def ValueList.toList : ValueList → List Value
  | .nil => []
  | .cons v tl => v :: tl.toList

def Fields.toList : Fields → List (String × Value)
  | .nil => []
  | .cons k v tl => (k, v) :: tl.toList

def Fields.append : Fields → Fields → Fields
  | .nil, gs => gs
  | .cons k v tl, gs => .cons k v (tl.append gs)

mutual
/-- `utils/deep-clone.ts` `deepClone` (the fallback cloner also used for every
field-level clone).  Case-by-case translation of the source:
`obj === null || typeof obj !== 'object'` returns the value as-is (the
non-object constructors below); `Array.isArray(obj)` maps `deepClone` over the
elements; everything else is rebuilt from `Object.entries(obj)` — for a plain
object these are its fields, while the host objects `Date`, `File` and `Blob`
have no own enumerable properties, so `Object.entries` is empty and they
collapse to `{}`. -/
def deepClone : Value → Value
  | .vNull => .vNull
  | .vUndef => .vUndef
  | .vBool b => .vBool b
  | .vNum n => .vNum n
  | .vStr s => .vStr s
  | .vBigInt n => .vBigInt n
  | .vArr xs => .vArr (deepCloneL xs)
  | .vDate _ => .vObj .nil
  | .vFile _ => .vObj .nil
  | .vBlob _ => .vObj .nil
  | .vObj fs => .vObj (deepCloneF fs)

/-- `obj.map((item) => deepClone(item))` over an array. -/
def deepCloneL : ValueList → ValueList
  | .nil => .nil
  | .cons v tl => .cons (deepClone v) (deepCloneL tl)

/-- The `Object.entries(obj).reduce(...)` loop: each own enumerable entry is
cloned key-wise, preserving key order. -/
def deepCloneF : Fields → Fields
  | .nil => .nil
  | .cons k v tl => .cons k (deepClone v) (deepCloneF tl)
end

mutual
/-- The clone contract of spec §4.2 as amended by `deepClone_decomposes_file`:
primitives and `null` are returned as-is; arrays are cloned element-wise
preserving order; plain mappings are cloned key-wise preserving all keys; and
`Date`/`File`/`Blob` leaves are NOT preserved by reference — lacking own
enumerable entries they are decomposed into empty mappings. -/
def cloneSpec : Value → Value
  | .vArr xs => .vArr (cloneSpecL xs)
  | .vObj fs => .vObj (cloneSpecF fs)
  | .vDate _ | .vFile _ | .vBlob _ => .vObj .nil
  | v => v

/-- Element-wise cloning of an array, preserving order. -/
def cloneSpecL : ValueList → ValueList
  | .nil => .nil
  | .cons v tl => .cons (cloneSpec v) (cloneSpecL tl)

/-- Key-wise cloning of a mapping, preserving all keys. -/
def cloneSpecF : Fields → Fields
  | .nil => .nil
  | .cons k v tl => .cons k (cloneSpec v) (cloneSpecF tl)
end

mutual
theorem deepClone_eq_cloneSpec_aux : ∀ v, deepClone v = cloneSpec v
  | .vNull | .vUndef | .vBool _ | .vNum _ | .vStr _ | .vBigInt _ => rfl
  | .vDate _ | .vFile _ | .vBlob _ => rfl
  | .vArr xs => by simp [deepClone, cloneSpec, deepClone_eq_cloneSpecL_aux xs]
  | .vObj fs => by simp [deepClone, cloneSpec, deepClone_eq_cloneSpecF_aux fs]

theorem deepClone_eq_cloneSpecL_aux : ∀ xs, deepCloneL xs = cloneSpecL xs
  | .nil => rfl
  | .cons v tl => by
      simp [deepCloneL, cloneSpecL, deepClone_eq_cloneSpec_aux v, deepClone_eq_cloneSpecL_aux tl]

theorem deepClone_eq_cloneSpecF_aux : ∀ fs, deepCloneF fs = cloneSpecF fs
  | .nil => rfl
  | .cons k v tl => by
      simp [deepCloneF, cloneSpecF, deepClone_eq_cloneSpec_aux v, deepClone_eq_cloneSpecF_aux tl]
end

mutual
/-- Values free of `Date`/`File`/`Blob` leaves.  These are exactly the values on
which the fallback `deepClone` acts as the identity (see
`deepClone_id_of_cloneSafe`). -/
def cloneSafe : Value → Bool
  | .vDate _ | .vFile _ | .vBlob _ => false
  | .vArr xs => cloneSafeL xs
  | .vObj fs => cloneSafeF fs
  | _ => true

/-- All elements of an array are `cloneSafe`. -/
def cloneSafeL : ValueList → Bool
  | .nil => true
  | .cons v tl => cloneSafe v && cloneSafeL tl

/-- All values of a mapping are `cloneSafe`. -/
def cloneSafeF : Fields → Bool
  | .nil => true
  | .cons _ v tl => cloneSafe v && cloneSafeF tl
end

mutual
theorem deepClone_id_of_cloneSafe : ∀ v, cloneSafe v = true → deepClone v = v
  | .vNull, _ | .vUndef, _ | .vBool _, _ | .vNum _, _ | .vStr _, _ | .vBigInt _, _ => rfl
  | .vArr xs, h => by
      simp only [cloneSafe] at h
      simp [deepClone, deepCloneL_id_of_cloneSafeL xs h]
  | .vObj fs, h => by
      simp only [cloneSafe] at h
      simp [deepClone, deepCloneF_id_of_cloneSafeF fs h]

theorem deepCloneL_id_of_cloneSafeL : ∀ xs, cloneSafeL xs = true → deepCloneL xs = xs
  | .nil, _ => rfl
  | .cons v tl, h => by
      simp only [cloneSafeL, Bool.and_eq_true] at h
      simp [deepCloneL, deepClone_id_of_cloneSafe v h.1, deepCloneL_id_of_cloneSafeL tl h.2]

theorem deepCloneF_id_of_cloneSafeF : ∀ fs, cloneSafeF fs = true → deepCloneF fs = fs
  | .nil, _ => rfl
  | .cons k v tl, h => by
      simp only [cloneSafeF, Bool.and_eq_true] at h
      simp [deepCloneF, deepClone_id_of_cloneSafe v h.1, deepCloneF_id_of_cloneSafeF tl h.2]
end

mutual
/-- Structural equality test on embedded values.  JS `!==` (used by the proxy's
set trap) compares primitives by value and objects by reference; a pure tree
model cannot observe reference identity, so object comparison is structural
here.  Every theorem exercising this comparison does so on primitive leaves,
where the two notions agree. -/
def Value.beq : Value → Value → Bool
  | .vNull, .vNull => true
  | .vUndef, .vUndef => true
  | .vBool a, .vBool b => a == b
  | .vNum a, .vNum b => a == b
  | .vStr a, .vStr b => a == b
  | .vDate a, .vDate b => a == b
  | .vFile a, .vFile b => a == b
  | .vBlob a, .vBlob b => a == b
  | .vBigInt a, .vBigInt b => a == b
  | .vArr a, .vArr b => ValueList.beq a b
  | .vObj a, .vObj b => Fields.beq a b
  | _, _ => false

def ValueList.beq : ValueList → ValueList → Bool
  | .nil, .nil => true
  | .cons v tl, .cons w tl2 => Value.beq v w && ValueList.beq tl tl2
  | _, _ => false

def Fields.beq : Fields → Fields → Bool
  | .nil, .nil => true
  | .cons k v tl, .cons k2 w tl2 => k == k2 && Value.beq v w && Fields.beq tl tl2
  | _, _ => false
end

/-- `Object.prototype.hasOwnProperty`-style lookup in an object's fields. -/
def Fields.lookup : Fields → String → Option Value
  | .nil, _ => none
  | .cons k2 v tl, k => if k2 = k then some v else tl.lookup k

/-- Property assignment / spread-merge `{ ...fs, [k]: v }`: an existing key keeps
its position and gets the new value; a fresh key is appended at the end. -/
def Fields.upsert : Fields → String → Value → Fields
  | .nil, k, v => .cons k v .nil
  | .cons k2 w tl, k, v => if k2 = k then .cons k2 v tl else .cons k2 w (tl.upsert k v)

/-- Claim C6 (counterexample): `deepClone` does not return a `File` leaf by
reference (nor unchanged): a `File` falls through to the `Object.entries`
branch of `utils/deep-clone.ts`, which rebuilds it as an empty plain object,
because a `File` has no own enumerable properties.  The claim's required
behaviour — binary blob-like leaves returned as unchanged opaque leaves — is
therefore false at the input `File "avatar.png"`. -/
theorem deepClone_decomposes_file :
    deepClone (.vFile "avatar.png") = .vObj .nil ∧
      (Value.vObj .nil) ≠ (Value.vFile "avatar.png") := by
  refine ⟨rfl, ?_⟩
  intro h
  exact Value.noConfusion h

/-- Claim C6 (amended): `clone(value)` returns primitives and `null` as-is,
clones arrays element-wise preserving order and plain mappings key-wise
preserving all keys; but binary blob-like leaves (`File`/`Blob`, and likewise
`Date`) are not opaque leaves copied by reference — they are decomposed
key-wise over their (empty) own enumerable entries, yielding empty mappings. -/
theorem deepClone_satisfies_amended_clone_contract : ∀ v, deepClone v = cloneSpec v :=
  deepClone_eq_cloneSpec_aux

/-! ## The form state machine (`src/form.ts`) -/

/-- `src/enum/form.ts` `FormState`. -/
inductive FormState where
  | idle
  | processing
  | success
  | error
  | cancelled
deriving Repr, DecidableEq

/-- `types/progress` record as built by `utils/progress-tracker.ts`. -/
structure Progress where
  total : Nat
  loaded : Nat
  percentage : Nat
  bytes : Nat
  lengthComputable : Bool
deriving Repr, DecidableEq

/-- The mutable state of a `Form` instance (`src/form.ts`).  `errors` values are
optional because `formatValidationErrors` can store `undefined` under a key
(first element of an empty message array).  The validation-rule table, the
transform callback and the transport handles are omitted: no claim under study
touches them. -/
structure FormModel where
  data : Fields
  defaults : Fields
  errors : List (String × Option String)
  processing : Bool
  progress : Option Progress
  wasSuccessful : Bool
  recentlySuccessful : Bool
  isDirty : Bool
  state : FormState
  dirtyFields : List String
deriving Repr

/-- `deepCloneData` applied to the whole `data`/`defaults` object: the entries of
the structured clone of a plain object are the key-wise structured clones.  The
`sc` flag models `typeof globalThis.structuredClone === 'function'`
(form.ts:126): the host `structuredClone` is structure-preserving and succeeds
on every constructor of `Value` (all are structured-cloneable, including
`BigInt`, `Date`, `File` and `Blob`), so in this tree model it is the identity;
without it the utility `deepClone` is used. -/
def deepCloneDataF (sc : Bool) (fs : Fields) : Fields :=
  if sc then fs else deepCloneF fs

/-- The `Form` constructor (form.ts:107-117): `data` holds the initial object,
`defaults` a deep clone of it, every flag is at its initial value. -/
def mkForm (sc : Bool) (initialData : Fields) : FormModel :=
  { data := initialData
    defaults := deepCloneDataF sc initialData
    errors := []
    processing := false
    progress := none
    wasSuccessful := false
    recentlySuccessful := false
    isDirty := false
    state := .idle
    dirtyFields := [] }

/-- `markFieldDirty` (form.ts:142-145): adds the field to the dirty set and
raises `isDirty`.  The dirty set is modelled as a duplicate-free list. -/
def markFieldDirty (st : FormModel) (field : String) : FormModel :=
  { st with
    dirtyFields := if field ∈ st.dirtyFields then st.dirtyFields else st.dirtyFields ++ [field]
    isDirty := true }

/-- `clearDirtyFields` (form.ts:168-171). -/
def clearDirtyFields (st : FormModel) : FormModel :=
  { st with dirtyFields := [], isDirty := false }

/-- `clearErrors` (form.ts:196-198). -/
def clearErrors (st : FormModel) : FormModel :=
  { st with errors := [] }

/-- `reset()` with no arguments (form.ts:240-257): `data` becomes a deep clone
of `defaults`, dirty tracking and errors are cleared, the lifecycle returns to
`idle` and the success flags drop. -/
def resetAll (sc : Bool) (st : FormModel) : FormModel :=
  { st with
    data := deepCloneDataF sc st.defaults
    dirtyFields := []
    isDirty := false
    errors := []
    state := .idle
    wasSuccessful := false
    recentlySuccessful := false }

/-- `setDefaults()` with no arguments (form.ts:266-267): snapshot the current
`data` as the new `defaults`, deep-cloned. -/
def setDefaultsAll (sc : Bool) (st : FormModel) : FormModel :=
  { st with defaults := deepCloneDataF sc st.data }

/-- `setDefaults(field, value)` with a string field (form.ts:268-270):
`this.defaults = { ...this.defaults, [field]: deepClone(value) }`. -/
def setDefaultsField (st : FormModel) (field : String) (value : Value) : FormModel :=
  { st with defaults := st.defaults.upsert field (deepClone value) }

/-! ## The field-interception proxy (`src/utils/form-proxy.ts`) -/

/-- The own instance properties of a `Form` object: the class fields declared in
`form.ts` (public `data`, `errors`, `processing`, `progress`, `wasSuccessful`,
`recentlySuccessful`, `isDirty`, `rules`, `state`; protected `defaults`,
`transformCallback`, `cancelTokenSource`, `axiosInstance`, `timeoutManager`;
private `dirtyFields`).  All are initialised by field initialisers or in the
constructor, so at any time after construction
`Object.prototype.hasOwnProperty.call(target, key)` is true exactly for these
keys.  Methods live on the prototype and are NOT own properties. -/
def instanceProps : List String :=
  ["data", "errors", "processing", "progress", "wasSuccessful", "recentlySuccessful",
   "isDirty", "rules", "state", "defaults", "transformCallback", "cancelTokenSource",
   "axiosInstance", "timeoutManager", "dirtyFields"]

/-- The prototype methods of `Form` (form.ts), found by the proxy's fallback
`keyExistsIn(target, key)` check through the prototype chain. -/
def protoProps : List String :=
  ["isFile", "isBlob", "deepCloneData", "markFieldDirty", "isFieldDirty", "getDirtyFields",
   "clearDirtyFields", "setError", "setErrors", "clearErrors", "clearError", "hasErrors",
   "hasError", "getError", "reset", "setDefaults", "transform", "submit", "updateProgress",
   "handleSuccess", "handleError", "get", "post", "put", "patch", "delete", "options",
   "submitDebounced", "validateField", "validateDirtyFields", "validate", "cancel",
   "markRecentlySuccessful", "toJSON", "toFormData", "fromJSON", "isState",
   "getStateSummary", "dispose"]

/-- Modelled from the spec: the enum `src/enum/reserved-field-names.ts` is not
under `src/`; only its member names are visible (in
`utils/field-name-validator.ts`, which is under `src/`).  Its string values are
the camel-case renderings of those member names, matching the reserved-name
list of spec §6 (`data`, `processing`, `isDirty`, `reset`, `submit`, `get`,
`post`, `put`, `patch`, `delete`, `options`, `cancel`, `transform`, `setError`,
`setErrors`, `clearErrors`, `setDefaults`, `wasSuccessful`,
`recentlySuccessful`, `formError`, ...). -/
def reservedFieldNames : List String :=
  ["options", "page", "validateRequestType", "data", "delete", "errorFor", "errorsFor",
   "hasErrors", "initial", "isDirty", "onFail", "onSuccess", "patch", "post", "processing",
   "put", "recentlySuccessful", "reset", "submit", "successful", "withData", "withOptions",
   "formError", "wasSuccessful", "cancel", "transform", "setError", "setErrors",
   "clearErrors", "setDefaults", "resetForm", "submitForm", "get", "postForm", "putForm",
   "patchForm", "deleteForm", "optionsForm", "markRecentlySuccessful"]

/-- The message `guardAgainstReservedFieldName` throws
(`utils/field-name-validator.ts`). -/
def reservedNameMessage (key : String) : String :=
  "The field name \"" ++ key ++ "\" is reserved and cannot be used in a Form or Errors instance."

/-- Outcome of one write through the proxy's set trap
(`utils/form-proxy.ts:34-59`).  Only `fieldWrite` changes the modelled form
state; the raw own-property assignment of the first branch is outside the
`data` mapping (when `key = "data"` it replaces the whole data object) and is
recorded without a post-state because no claim under study observes it. -/
inductive SetResult where
  /-- Branch 1 (line 35): `hasOwnProperty(target, key)` — the raw value is
  assigned to the own instance property directly, bypassing the guard. -/
  | ownAssign
  /-- Branch 2 (line 40): `guardAgainstReservedFieldName` threw. -/
  | reservedError (message : String)
  /-- Branch 3 (lines 42-50): an existing data field with a different value:
  prior value snapshotted into `defaults`, field updated, `isDirty` raised. -/
  | fieldWrite (st : FormModel)
  /-- Branch 4 (lines 53-56): a prototype key — assigned on the instance,
  shadowing the method. -/
  | shadowAssign
  /-- Fall-through (line 58): the trap returns `false` (no such field). -/
  | rejected
deriving Repr

/-- The set trap of `createFormProxy` (`utils/form-proxy.ts:34-59`), branch by
branch: own instance properties are assigned directly; then reserved names are
rejected by the guard; then an existing data field whose current value differs
from the incoming one (`target.data[key] !== value`) has its prior value
snapshotted into `defaults` via `setDefaults(key, …)`, is updated in `data`,
and raises `isDirty` — note that the trap never touches `dirtyFields`; finally
keys found on the instance or prototype are assigned, and anything else is
refused. -/
def proxySet (st : FormModel) (key : String) (value : Value) : SetResult :=
  if key ∈ instanceProps then .ownAssign
  else if key ∈ reservedFieldNames then .reservedError (reservedNameMessage key)
  else
    match st.data.lookup key with
    | some old =>
        if Value.beq old value then
          if key ∈ protoProps then .shadowAssign else .rejected
        else
          .fieldWrite { (setDefaultsField st key old) with
            data := st.data.upsert key value
            isDirty := true }
    | none => if key ∈ protoProps then .shadowAssign else .rejected

/-- A small concrete form used by several evaluations below:
`new Form({ name: '' })` in an environment with `structuredClone`. -/
def sampleForm : FormModel := mkForm true (.cons "name" (.vStr "") .nil)

/-- Claim C1 (code bug, evaluated at the failing input): after
`form.name = 'Ann'` on `new Form({ name: '' })`, the set trap takes the
data-field branch and yields a state with `isDirty = true` and `dirtyFields`
still empty — `isDirty` is true while the dirty set is empty, so "isDirty iff
dirtyFields is non-empty" fails.  The trap raises `isDirty` without ever
calling `markFieldDirty` (form-proxy.ts:46-49), although `dirtyFields` is
documented as tracking the modified fields (form.ts:83-85). -/
theorem proxy_write_desyncs_isDirty_from_dirtyFields :
    ∃ st, proxySet sampleForm "name" (.vStr "Ann") = .fieldWrite st ∧
      st.isDirty = true ∧ st.dirtyFields = [] := by
  exact ⟨_, rfl, rfl, rfl⟩

/-- Claim C2 (counterexample): `"processing"` is in the reserved set, yet
writing it through the proxy does not raise a `ReservedNameError`: it is an own
instance property of the form, so the trap's first branch assigns it directly
(form-proxy.ts:35-38) and the guard is never consulted. -/
theorem reserved_own_property_write_not_guarded :
    "processing" ∈ reservedFieldNames ∧
      proxySet sampleForm "processing" (.vBool true) = .ownAssign := by
  exact ⟨by decide, rfl⟩

/-- Claim C2 (amended): every reserved name that is NOT an own instance
property of the form (all the reserved method names, and the never-declared
names such as `page` or `formError`) fails with a `ReservedNameError` when
written through the proxy, whatever the attempted value, leaving the data
mapping unchanged; the five reserved names that coincide with own instance
properties (`data`, `processing`, `isDirty`, `wasSuccessful`,
`recentlySuccessful`) are instead assigned directly to that property without
consulting the guard. -/
theorem reserved_nonproperty_write_raises (st : FormModel) (key : String) (value : Value)
    (hres : key ∈ reservedFieldNames) (hown : key ∉ instanceProps) :
    proxySet st key value = .reservedError (reservedNameMessage key) := by
  simp only [proxySet, if_neg hown, if_pos hres]

/-- Witness for `reserved_nonproperty_write_raises` at the reserved method name
`submit`. -/
theorem reserved_nonproperty_write_raises_witness :
    ("submit" ∈ reservedFieldNames ∧ "submit" ∉ instanceProps) ∧
      proxySet sampleForm "submit" (.vStr "x") = .reservedError (reservedNameMessage "submit") :=
  ⟨⟨by decide, by decide⟩,
    reserved_nonproperty_write_raises sampleForm "submit" (.vStr "x") (by decide) (by decide)⟩

/-- Claim C9 (counterexample): in an environment without `structuredClone`
(`sc = false`), on `new Form({ avatar: <File> })` the sequence `setDefaults()`
then `reset()` does NOT leave `data` unchanged: each step routes the `File`
leaf through the fallback `deepClone`, which decomposes it into an empty plain
object. -/
theorem setDefaults_reset_mangles_file :
    (resetAll false (setDefaultsAll false
        (mkForm false (.cons "avatar" (.vFile "cv.png") .nil)))).data ≠
      (mkForm false (.cons "avatar" (.vFile "cv.png") .nil)).data := by
  intro h
  simp only [mkForm, resetAll, setDefaultsAll, deepCloneDataF, if_neg (Bool.false_ne_true),
    deepCloneF, deepClone] at h
  cases h

/-- Claim C9 (amended): `setDefaults()` followed by `reset()` leaves `data`
structurally unchanged whenever `structuredClone` is available; under the
fallback `deepClone` this still holds provided `data` is free of
`Date`/`File`/`Blob` leaves (otherwise those leaves are replaced by empty
mappings, as in the counterexample). -/
theorem setDefaults_then_reset_preserves_data (sc : Bool) (st : FormModel)
    (h : sc = true ∨ cloneSafeF st.data = true) :
    (resetAll sc (setDefaultsAll sc st)).data = st.data := by
  cases sc with
  | true => simp [resetAll, setDefaultsAll, deepCloneDataF]
  | false =>
      rcases h with h | h
      · cases h
      · simp only [resetAll, setDefaultsAll, deepCloneDataF, if_neg (Bool.false_ne_true)]
        rw [deepCloneF_id_of_cloneSafeF st.data h, deepCloneF_id_of_cloneSafeF st.data h]

/-- Witness for `setDefaults_then_reset_preserves_data` on a form holding a
string field, without `structuredClone` (the clone-safe side of the
hypothesis). -/
theorem setDefaults_then_reset_preserves_data_witness :
    (cloneSafeF (mkForm false (.cons "name" (.vStr "Ann") .nil)).data = true) ∧
      (resetAll false (setDefaultsAll false (mkForm false (.cons "name" (.vStr "Ann") .nil)))).data =
        (mkForm false (.cons "name" (.vStr "Ann") .nil)).data :=
  ⟨rfl, setDefaults_then_reset_preserves_data false _ (Or.inr rfl)⟩

/-! ## The submission pipeline (`submit`, `handleSuccess`, `handleError`) -/

/-- Behaviour of one caller-supplied lifecycle hook when invoked. -/
inductive HookBehavior where
  | ok
  | throwErr (msg : String)
deriving Repr, DecidableEq

/-- The caller-supplied lifecycle hooks of `FormOptions` that `submit` consults
(`onProgress` is omitted: no claim under study observes it; absent hooks are
never called). -/
structure Hooks where
  onBefore : Option HookBehavior
  onSuccess : Option HookBehavior
  onError : Option HookBehavior
  onFinish : Option HookBehavior
deriving Repr, DecidableEq

/-- A hook invocation, in the order `submit` performs them. -/
inductive Event where
  | eBefore
  | eSuccess
  | eError
  | eFinish
deriving Repr, DecidableEq

/-- The per-field body of a 422 response (`ApiValidationError.errors`):
`formatValidationErrors` defensively accepts either a message list or a bare
string for each field. -/
inductive Messages where
  | one (s : String)
  | many (ms : List String)
deriving Repr, DecidableEq

/-- `Array.isArray(messages) ? messages[0] : messages`
(utils/error-formatter.ts:29): the head of a list — undefined when the list is
empty — or the bare string. -/
def firstMessage : Messages → Option String
  | .one s => some s
  | .many ms => ms.head?

/-- `formatValidationErrors` (utils/error-formatter.ts:25-33): one entry per
listed field, keeping the first message of a message list. -/
def formatValidationErrors (payload : List (String × Messages)) :
    List (String × Option String) :=
  payload.map fun p => (p.1, firstMessage p.2)

/-- `formatGeneralError` (utils/error-formatter.ts:40-44): a thrown value that
is an `Error` contributes its message, anything else the generic fallback. -/
def formatGeneralError (isError : Bool) (msg : String) : List (String × Option String) :=
  [("formError", some (if isError then msg else "An unexpected error occurred"))]

/-- An upload-progress event as the transport delivers it. -/
structure PEvent where
  loaded : Nat
  total : Nat
  lengthComputable : Bool
deriving Repr, DecidableEq

/-- `createProgressObject` (utils/progress-tracker.ts:9-17).  `Math.round` of
`loaded / (total || 1) * 100` is half-up rounding, computed exactly on
naturals. -/
def createProgressObject (e : PEvent) : Progress :=
  let t := if e.total = 0 then 1 else e.total
  { total := e.total
    loaded := e.loaded
    percentage := (200 * e.loaded + t) / (2 * t)
    bytes := e.loaded
    lengthComputable := e.lengthComputable }

/-- One `onUploadProgress` delivery inside `submit` (form.ts:324-328) feeding
`updateProgress` (form.ts:349-357): nothing happens unless `event.total` is
truthy, otherwise `progress` is replaced. -/
def applyProgress (st : FormModel) (e : PEvent) : FormModel :=
  if e.total ≠ 0 then { st with progress := some (createProgressObject e) } else st

/-- The failure kinds `handleError` distinguishes (form.ts:383-417). -/
inductive ErrKind where
  /-- `axios.isCancel(error)` is true. -/
  | cancelled
  /-- An `AxiosError` without a response: network failure. -/
  | axiosNoResponse
  /-- An `AxiosError` whose response carries this status; the body is consulted
  only when the status is 422. -/
  | axiosStatus (status : Nat) (payload : List (String × Messages))
  /-- A thrown non-Axios value (`isError`: whether it is an `Error` instance
  with message `msg`). -/
  | other (isError : Bool) (msg : String)
deriving Repr, DecidableEq

/-- The status-code classification of `handleError` (form.ts:396-417), branch
for branch.  (`status && status >= 500`: a status of at least 500 is never the
falsy 0, so the truthiness conjunct is redundant.) -/
def classifyErrors : ErrKind → List (String × Option String)
  | .axiosNoResponse =>
      [("formError", some "Network error. Please check your connection and try again.")]
  | .axiosStatus status payload =>
      if status = 422 then formatValidationErrors payload
      else if status = 404 then
        [("formError", some "The requested resource was not found.")]
      else if status = 403 then
        [("formError", some "You do not have permission to perform this action.")]
      else if status = 401 then
        [("formError", some "Authentication required. Please log in and try again.")]
      else if 500 ≤ status then
        [("formError", some "Server error. Please try again later.")]
      else
        [("formError",
          some ("Server returned an error (" ++ toString status ++ "). Please try again."))]
  | .other isErr m => formatGeneralError isErr m
  | .cancelled => []

/-- `handleError` (form.ts:383-422): cancellation sets the state to `cancelled`
and returns at once — no error recorded, `onError` not consulted; any other
failure sets the state to `error`, replaces `errors` with the classification
above, then invokes `onError` if supplied.  Result: new state, hook events, and
the exception `onError` itself threw, if any. -/
def handleError (st : FormModel) (k : ErrKind) (hooks : Hooks) :
    FormModel × List Event × Option String :=
  match k with
  | .cancelled => ({ st with state := .cancelled }, [], none)
  | k =>
      let st2 : FormModel := { st with state := .error, errors := classifyErrors k }
      match hooks.onError with
      | none => (st2, [], none)
      | some .ok => (st2, [.eError], none)
      | some (.throwErr m) => (st2, [.eError], some m)

/-- The state mutations of `handleSuccess` (form.ts:365-369) before the
`onSuccess` hook runs: success flags raised, state `success`, dirty tracking
cleared, `recentlySuccessful` raised (`markRecentlySuccessful`'s delayed reset
timer is not modelled). -/
def handleSuccessState (st : FormModel) : FormModel :=
  { st with
    wasSuccessful := true
    state := .success
    dirtyFields := []
    isDirty := false
    recentlySuccessful := true }

/-- How the awaited transport call ends, as `submit` observes it. -/
inductive Term where
  /-- The request resolves. -/
  | success
  /-- `cancel()` is invoked mid-flight (form.ts:583-590) — the only producer of
  the cancellation signal in the library: it aborts via the cancel token
  created at submit entry, so the await rejects with a value for which
  `axios.isCancel` is true, after `cancel()` has already dropped `processing`,
  nulled `progress` and moved the state to `cancelled`. -/
  | cancel
  /-- The request rejects with an `AxiosError` carrying no response. -/
  | axiosNoResponse
  /-- The request rejects with an `AxiosError` carrying a response with this
  status and per-field body. -/
  | axiosStatus (status : Nat) (payload : List (String × Messages))
  /-- The awaited expression throws a non-Axios value. -/
  | otherThrow (isError : Bool) (msg : String)
deriving Repr, DecidableEq

/-- One submission transcript: the upload-progress events delivered during the
await, then the terminal outcome. -/
structure Flight where
  events : List PEvent
  term : Term
deriving Repr, DecidableEq

/-- The `try`/`catch` of `submit` (form.ts:303-336), from the state prepared at
entry.  Returns the state after the two blocks, the hook events in order, and a
pending exception (a hook throw that will propagate once `finally` has run). -/
def tryCatchPhase (st1 : FormModel) (hooks : Hooks) (fl : Flight) :
    FormModel × List Event × Option String :=
  match hooks.onBefore with
  | some (.throwErr m) =>
      -- `onBefore` threw before the request was issued; the catch block routes
      -- the plain `Error` through `handleError`.
      let r := handleError st1 (.other true m) hooks
      (r.1, .eBefore :: r.2.1, r.2.2)
  | hb =>
      let logB : List Event := match hb with | some .ok => [.eBefore] | _ => []
      let stp := fl.events.foldl applyProgress st1
      match fl.term with
      | .success =>
          let st2 := handleSuccessState stp
          match hooks.onSuccess with
          | none => (st2, logB, none)
          | some .ok => (st2, logB ++ [.eSuccess], none)
          | some (.throwErr m) =>
              -- `onSuccess` threw inside the `try`; the catch block routes it
              -- through `handleError` as a plain `Error`.
              let r := handleError st2 (.other true m) hooks
              (r.1, logB ++ .eSuccess :: r.2.1, r.2.2)
      | .cancel =>
          let stc : FormModel :=
            { stp with processing := false, progress := none, state := .cancelled }
          let r := handleError stc .cancelled hooks
          (r.1, logB ++ r.2.1, r.2.2)
      | .axiosNoResponse =>
          let r := handleError stp .axiosNoResponse hooks
          (r.1, logB ++ r.2.1, r.2.2)
      | .axiosStatus s payload =>
          let r := handleError stp (.axiosStatus s payload) hooks
          (r.1, logB ++ r.2.1, r.2.2)
      | .otherThrow isErr m =>
          let r := handleError stp (.other isErr m) hooks
          (r.1, logB ++ r.2.1, r.2.2)

/-- `submit` (form.ts:296-341) on one transcript: entry raises `processing`,
moves the state to `processing` and clears `errors`; the `try`/`catch` runs;
the `finally` block drops `processing` and invokes `onFinish` if supplied
(whose own throw, if any, replaces a pending exception).  Result: final state,
hook events in order, and the exception with which the returned promise
rejects, if any. -/
def submitFlight (st : FormModel) (hooks : Hooks) (fl : Flight) :
    FormModel × List Event × Option String :=
  let st1 : FormModel := { st with processing := true, state := .processing, errors := [] }
  let r := tryCatchPhase st1 hooks fl
  let stF : FormModel := { r.1 with processing := false }
  match hooks.onFinish with
  | none => (stF, r.2.1, r.2.2)
  | some .ok => (stF, r.2.1 ++ [.eFinish], r.2.2)
  | some (.throwErr m) => (stF, r.2.1 ++ [.eFinish], some m)

/-- The final form state of one submission transcript. -/
def submitState (st : FormModel) (hooks : Hooks) (fl : Flight) : FormModel :=
  (submitFlight st hooks fl).1

/-- The hook invocations of one submission transcript, in order. -/
def submitLog (st : FormModel) (hooks : Hooks) (fl : Flight) : List Event :=
  (submitFlight st hooks fl).2.1

/-- Progress deliveries change only the `progress` component of the state. -/
theorem foldl_applyProgress_shape (es : List PEvent) (st : FormModel) :
    ∃ pr, es.foldl applyProgress st = { st with progress := pr } := by
  induction es generalizing st with
  | nil => exact ⟨st.progress, rfl⟩
  | cons e tl ih =>
      rcases ih (applyProgress st e) with ⟨pr, hpr⟩
      refine ⟨pr, ?_⟩
      rw [List.foldl_cons, hpr]
      unfold applyProgress
      split <;> rfl

/-- No branch of the `try`/`catch` emits the `onFinish` event: `onFinish` is
called only from the `finally` block. -/
theorem eFinish_not_mem_tryCatch (st1 : FormModel) (hooks : Hooks) (fl : Flight) :
    Event.eFinish ∉ (tryCatchPhase st1 hooks fl).2.1 := by
  obtain ⟨hb, hs, he, hf⟩ := hooks
  obtain ⟨es, term⟩ := fl
  rcases hb with _ | (_ | m) <;>
    rcases term with _ | _ | _ | ⟨s, payload⟩ | ⟨ie, m2⟩ <;>
    rcases hs with _ | (_ | m3) <;>
    rcases he with _ | (_ | m4) <;>
    simp [tryCatchPhase, handleError]

/-- Claim C4: for every submission transcript with an `onFinish` hook supplied,
`onFinish` is invoked exactly once, strictly after every other hook invocation
(in particular after whichever of `onSuccess`/`onError` applies), whatever the
outcome — including when `onSuccess` or `onError` itself throws: it occurs
exactly once in the event log, as its last entry. -/
theorem onFinish_exactly_once_and_last (st : FormModel) (hooks : Hooks) (fl : Flight)
    (hf : hooks.onFinish ≠ none) :
    (submitLog st hooks fl).count .eFinish = 1 ∧
      (submitLog st hooks fl).getLast? = some .eFinish := by
  have hnot := eFinish_not_mem_tryCatch
    { st with processing := true, state := .processing, errors := [] } hooks fl
  rcases hfin : hooks.onFinish with _ | b
  · exact absurd hfin hf
  · rcases b <;>
      simp [submitLog, submitFlight, hfin, List.count_append, List.getLast?_concat,
        List.count_eq_zero.mpr hnot]

/-- Witness for `onFinish_exactly_once_and_last`: a plain successful submission
carrying only an `onFinish` hook. -/
theorem onFinish_exactly_once_and_last_witness :
    (submitLog sampleForm ⟨none, none, none, some .ok⟩ ⟨[], .success⟩).count .eFinish = 1 ∧
      (submitLog sampleForm ⟨none, none, none, some .ok⟩ ⟨[], .success⟩).getLast? =
        some .eFinish :=
  onFinish_exactly_once_and_last sampleForm ⟨none, none, none, some .ok⟩ ⟨[], .success⟩
    (by simp)

/-- Claim C3: a submission that ends in cancellation (the transport rejects
with the cancellation signal produced by `cancel()`) never populates `errors`,
never invokes `onSuccess` or `onError`, does invoke the supplied `onFinish`,
and leaves `processing` false and `progress` absent afterwards — whatever
progress events were delivered before the cancellation. -/
theorem cancelled_submission_clean (st : FormModel) (hooks : Hooks) (pes : List PEvent)
    (hb : hooks.onBefore = none ∨ hooks.onBefore = some .ok)
    (hf : hooks.onFinish ≠ none) :
    (submitState st hooks ⟨pes, .cancel⟩).errors = [] ∧
      (submitState st hooks ⟨pes, .cancel⟩).processing = false ∧
      (submitState st hooks ⟨pes, .cancel⟩).progress = none ∧
      (submitState st hooks ⟨pes, .cancel⟩).state = .cancelled ∧
      Event.eSuccess ∉ submitLog st hooks ⟨pes, .cancel⟩ ∧
      Event.eError ∉ submitLog st hooks ⟨pes, .cancel⟩ ∧
      Event.eFinish ∈ submitLog st hooks ⟨pes, .cancel⟩ := by
  obtain ⟨pr, hpr⟩ := foldl_applyProgress_shape pes
    { st with processing := true, state := .processing, errors := [] }
  rcases hfin : hooks.onFinish with _ | b
  · exact absurd hfin hf
  · rcases hb with hb | hb <;> rcases b <;>
      simp [submitState, submitLog, submitFlight, tryCatchPhase, handleError, hb, hfin, hpr]

/-- Witness for `cancelled_submission_clean`: cancellation after one progress
event, with `onBefore` and `onFinish` supplied. -/
theorem cancelled_submission_clean_witness :
    (submitState sampleForm ⟨some .ok, none, none, some .ok⟩
        ⟨[⟨5, 10, true⟩], .cancel⟩).errors = [] ∧
      (submitState sampleForm ⟨some .ok, none, none, some .ok⟩
        ⟨[⟨5, 10, true⟩], .cancel⟩).processing = false ∧
      (submitState sampleForm ⟨some .ok, none, none, some .ok⟩
        ⟨[⟨5, 10, true⟩], .cancel⟩).progress = none ∧
      (submitState sampleForm ⟨some .ok, none, none, some .ok⟩
        ⟨[⟨5, 10, true⟩], .cancel⟩).state = .cancelled ∧
      Event.eSuccess ∉ submitLog sampleForm ⟨some .ok, none, none, some .ok⟩
        ⟨[⟨5, 10, true⟩], .cancel⟩ ∧
      Event.eError ∉ submitLog sampleForm ⟨some .ok, none, none, some .ok⟩
        ⟨[⟨5, 10, true⟩], .cancel⟩ ∧
      Event.eFinish ∈ submitLog sampleForm ⟨some .ok, none, none, some .ok⟩
        ⟨[⟨5, 10, true⟩], .cancel⟩ :=
  cancelled_submission_clean sampleForm ⟨some .ok, none, none, some .ok⟩ [⟨5, 10, true⟩]
    (Or.inr rfl) (by simp)

/-- Claim C5: a submission rejected with HTTP status 422 and a structured
per-field message map populates `errors` with exactly one entry per listed
field — the first message when the field maps to a message list — leaves
`wasSuccessful` false (given it was false before the submission; nothing on
this path raises it), and moves the lifecycle state to `error`. -/
theorem validation_422_populates_field_errors (st : FormModel) (hooks : Hooks)
    (pes : List PEvent) (payload : List (String × Messages))
    (hb : hooks.onBefore = none ∨ hooks.onBefore = some .ok)
    (hw : st.wasSuccessful = false)
    (hne : ∀ p ∈ payload, firstMessage p.2 ≠ none) :
    (submitState st hooks ⟨pes, .axiosStatus 422 payload⟩).errors =
        payload.map (fun p => (p.1, firstMessage p.2)) ∧
      (∀ q ∈ (submitState st hooks ⟨pes, .axiosStatus 422 payload⟩).errors, q.2 ≠ none) ∧
      (submitState st hooks ⟨pes, .axiosStatus 422 payload⟩).wasSuccessful = false ∧
      (submitState st hooks ⟨pes, .axiosStatus 422 payload⟩).state = .error := by
  obtain ⟨pr, hpr⟩ := foldl_applyProgress_shape pes
    { st with processing := true, state := .processing, errors := [] }
  have hstate : submitState st hooks ⟨pes, .axiosStatus 422 payload⟩ =
      { st with
        processing := false
        state := .error
        errors := payload.map (fun p => (p.1, firstMessage p.2))
        progress := pr } := by
    rcases hb with hb | hb <;>
      rcases herr : hooks.onError with _ | (_ | m4) <;>
      rcases hfin : hooks.onFinish with _ | (_ | m5) <;>
        simp [submitState, submitFlight, tryCatchPhase, handleError, classifyErrors,
          formatValidationErrors, hb, herr, hfin, hpr]
  refine ⟨by simp [hstate], ?_, by simp [hstate, hw], by simp [hstate]⟩
  intro q hq
  rw [hstate] at hq
  simp only [List.mem_map] at hq
  obtain ⟨p, hp, rfl⟩ := hq
  exact hne p hp

/-- Witness for `validation_422_populates_field_errors`: a 422 with one field
mapping to a two-message list and one to a bare message. -/
theorem validation_422_populates_field_errors_witness :
    (submitState sampleForm ⟨none, none, some .ok, some .ok⟩
        ⟨[], .axiosStatus 422 [("email", .many ["Required", "Also bad"]), ("name", .one "Bad")]⟩).errors =
        [("email", some "Required"), ("name", some "Bad")] ∧
      (submitState sampleForm ⟨none, none, some .ok, some .ok⟩
        ⟨[], .axiosStatus 422 [("email", .many ["Required", "Also bad"]), ("name", .one "Bad")]⟩).wasSuccessful = false ∧
      (submitState sampleForm ⟨none, none, some .ok, some .ok⟩
        ⟨[], .axiosStatus 422 [("email", .many ["Required", "Also bad"]), ("name", .one "Bad")]⟩).state = .error := by
  have h := validation_422_populates_field_errors sampleForm ⟨none, none, some .ok, some .ok⟩
    [] [("email", .many ["Required", "Also bad"]), ("name", .one "Bad")]
    (Or.inl rfl) rfl (by decide)
  exact ⟨h.1, h.2.2.1, h.2.2.2⟩

/-- Claim C10: when the transport resolves but the supplied `onSuccess` hook
throws, `submit` catches the exception and routes it through `handleError`: the
lifecycle state becomes `error`, `errors` is replaced by a single `formError`
entry carrying the exception's message, and the supplied `onError` hook is
invoked — while `wasSuccessful` (raised before `onSuccess` ran) remains true
and the supplied `onFinish` still runs. -/
theorem onSuccess_throw_routed_to_error_path (st : FormModel) (hooks : Hooks)
    (pes : List PEvent) (m : String)
    (hb : hooks.onBefore = none ∨ hooks.onBefore = some .ok)
    (hs : hooks.onSuccess = some (.throwErr m))
    (he : hooks.onError ≠ none) (hf : hooks.onFinish ≠ none) :
    (submitState st hooks ⟨pes, .success⟩).state = .error ∧
      (submitState st hooks ⟨pes, .success⟩).errors = [("formError", some m)] ∧
      (submitState st hooks ⟨pes, .success⟩).wasSuccessful = true ∧
      Event.eError ∈ submitLog st hooks ⟨pes, .success⟩ ∧
      Event.eFinish ∈ submitLog st hooks ⟨pes, .success⟩ := by
  obtain ⟨pr, hpr⟩ := foldl_applyProgress_shape pes
    { st with processing := true, state := .processing, errors := [] }
  rcases herr : hooks.onError with _ | eb
  · exact absurd herr he
  rcases hfin : hooks.onFinish with _ | fb
  · exact absurd hfin hf
  rcases hb with hb | hb <;> rcases eb <;> rcases fb <;>
    simp [submitState, submitLog, submitFlight, tryCatchPhase, handleError,
      handleSuccessState, classifyErrors, formatGeneralError, hb, hs, herr, hfin, hpr]

/-- Witness for `onSuccess_throw_routed_to_error_path`: a successful transport
round-trip whose `onSuccess` hook throws `Error("boom")`. -/
theorem onSuccess_throw_routed_to_error_path_witness :
    (submitState sampleForm ⟨none, some (.throwErr "boom"), some .ok, some .ok⟩
        ⟨[], .success⟩).state = .error ∧
      (submitState sampleForm ⟨none, some (.throwErr "boom"), some .ok, some .ok⟩
        ⟨[], .success⟩).errors = [("formError", some "boom")] ∧
      (submitState sampleForm ⟨none, some (.throwErr "boom"), some .ok, some .ok⟩
        ⟨[], .success⟩).wasSuccessful = true ∧
      Event.eError ∈ submitLog sampleForm ⟨none, some (.throwErr "boom"), some .ok, some .ok⟩
        ⟨[], .success⟩ ∧
      Event.eFinish ∈ submitLog sampleForm ⟨none, some (.throwErr "boom"), some .ok, some .ok⟩
        ⟨[], .success⟩ :=
  onSuccess_throw_routed_to_error_path sampleForm
    ⟨none, some (.throwErr "boom"), some .ok, some .ok⟩ [] "boom"
    (Or.inl rfl) rfl (by simp) (by simp)

/-! ## File detection (`src/utils/file.ts`) -/

mutual
/-- A value as `hasFiles` can receive it: the `RequestPayload` universe, which
beyond `FormDataConvertible` trees also covers `FileList` and `FormData`
containers. -/
inductive Payload where
  | pNull
  | pUndef
  | pBool (b : Bool)
  | pNum (n : Int)
  | pStr (s : String)
  /-- A `Date` host object: `typeof` is `'object'`, and it has no own
  enumerable properties, so `Object.values` of it is empty. -/
  | pDate (iso : String)
  | pFile (name : String)
  | pBlob (id : Nat)
  /-- A `FileList`: a list of `File`s, identified by their names. -/
  | pFileList (files : List String)
  /-- A `FormData`: its `entries()` in insertion order. -/
  | pFormData (entries : PayloadFields)
  | pArr (xs : PayloadList)
  | pObj (fs : PayloadFields)
deriving Repr

/-- A JavaScript array of payloads. -/
inductive PayloadList where
  | nil
  | cons (v : Payload) (tl : PayloadList)
deriving Repr

/-- String-keyed entries (of a plain object or a `FormData`), in order. -/
inductive PayloadFields where
  | nil
  | cons (k : String) (v : Payload) (tl : PayloadFields)
deriving Repr
end

def PayloadList.toList : PayloadList → List Payload
  | .nil => []
  | .cons v tl => v :: tl.toList

def PayloadFields.toList : PayloadFields → List (String × Payload)
  | .nil => []
  | .cons k v tl => (k, v) :: tl.toList

mutual
/-- `hasFiles` (utils/file.ts:9-37), case for case: `File` and `Blob` are
files; a `FileList` has files iff its `length` is positive; a `FormData` is
scanned over its `entries()` values; any other non-null `'object'` is scanned
over `Object.values` — empty for a `Date`, the elements for an array, the
field values for a plain object; primitives and `null` reach the final
`return false`. -/
def hasFiles : Payload → Bool
  | .pFile _ => true
  | .pBlob _ => true
  | .pFileList files => files.length != 0
  | .pFormData es => hasFilesF es
  | .pArr xs => hasFilesL xs
  | .pObj fs => hasFilesF fs
  | _ => false

/-- The `Object.values` scan over an array's elements. -/
def hasFilesL : PayloadList → Bool
  | .nil => false
  | .cons v tl => hasFiles v || hasFilesL tl

/-- The scan over entry values (of a plain object or a `FormData`). -/
def hasFilesF : PayloadFields → Bool
  | .nil => false
  | .cons _ v tl => hasFiles v || hasFilesF tl
end

/-- The reachability notion of spec §4.3: the value is itself a binary
blob-like value, or some recursively reachable element of a list or mapping
inside it is one.  A `FileList` is a list whose elements are `File`s; a
`FormData` is a mapping over its entries. -/
inductive ReachesBinary : Payload → Prop where
  | file (name : String) : ReachesBinary (.pFile name)
  | blob (id : Nat) : ReachesBinary (.pBlob id)
  | fileListMem (n : String) (files : List String) (h : n ∈ files) :
      ReachesBinary (.pFileList files)
  | arrMem (x : Payload) (xs : PayloadList) (hmem : x ∈ xs.toList)
      (hx : ReachesBinary x) : ReachesBinary (.pArr xs)
  | objMem (k : String) (v : Payload) (fs : PayloadFields) (hmem : (k, v) ∈ fs.toList)
      (hv : ReachesBinary v) : ReachesBinary (.pObj fs)
  | formDataMem (k : String) (v : Payload) (es : PayloadFields) (hmem : (k, v) ∈ es.toList)
      (hv : ReachesBinary v) : ReachesBinary (.pFormData es)

mutual
theorem hasFiles_iff_reachesBinary_aux : ∀ p, hasFiles p = true ↔ ReachesBinary p
  | .pNull => iff_of_false (by simp [hasFiles]) (fun h => nomatch h)
  | .pUndef => iff_of_false (by simp [hasFiles]) (fun h => nomatch h)
  | .pBool _ => iff_of_false (by simp [hasFiles]) (fun h => nomatch h)
  | .pNum _ => iff_of_false (by simp [hasFiles]) (fun h => nomatch h)
  | .pStr _ => iff_of_false (by simp [hasFiles]) (fun h => nomatch h)
  | .pDate _ => iff_of_false (by simp [hasFiles]) (fun h => nomatch h)
  | .pFile n => iff_of_true rfl (.file n)
  | .pBlob i => iff_of_true rfl (.blob i)
  | .pFileList files => by
      simp only [hasFiles, bne_iff_ne, ne_eq, List.length_eq_zero]
      constructor
      · intro h
        cases files with
        | nil => exact absurd rfl h
        | cons n rest => exact .fileListMem n (n :: rest) (List.mem_cons_self n rest)
      · intro h
        cases h with
        | fileListMem n files hn => exact List.ne_nil_of_mem hn
  | .pFormData es => by
      rw [show hasFiles (.pFormData es) = hasFilesF es from rfl,
        hasFilesF_iff_exists_aux es]
      constructor
      · rintro ⟨k, v, hmem, hv⟩
        exact .formDataMem k v es hmem hv
      · intro h
        cases h with
        | formDataMem k v es hmem hv => exact ⟨k, v, hmem, hv⟩
  | .pArr xs => by
      rw [show hasFiles (.pArr xs) = hasFilesL xs from rfl, hasFilesL_iff_exists_aux xs]
      constructor
      · rintro ⟨x, hmem, hx⟩
        exact .arrMem x xs hmem hx
      · intro h
        cases h with
        | arrMem x xs hmem hx => exact ⟨x, hmem, hx⟩
  | .pObj fs => by
      rw [show hasFiles (.pObj fs) = hasFilesF fs from rfl, hasFilesF_iff_exists_aux fs]
      constructor
      · rintro ⟨k, v, hmem, hv⟩
        exact .objMem k v fs hmem hv
      · intro h
        cases h with
        | objMem k v fs hmem hv => exact ⟨k, v, hmem, hv⟩

theorem hasFilesL_iff_exists_aux : ∀ xs : PayloadList,
    hasFilesL xs = true ↔ ∃ x ∈ xs.toList, ReachesBinary x
  | .nil => by simp [hasFilesL, PayloadList.toList]
  | .cons v tl => by
      simp only [hasFilesL, Bool.or_eq_true, hasFiles_iff_reachesBinary_aux v,
        hasFilesL_iff_exists_aux tl, PayloadList.toList, List.mem_cons]
      constructor
      · rintro (hv | ⟨x, hmem, hx⟩)
        · exact ⟨v, Or.inl rfl, hv⟩
        · exact ⟨x, Or.inr hmem, hx⟩
      · rintro ⟨x, hmem | hmem, hx⟩
        · exact Or.inl (hmem ▸ hx)
        · exact Or.inr ⟨x, hmem, hx⟩

theorem hasFilesF_iff_exists_aux : ∀ fs : PayloadFields,
    hasFilesF fs = true ↔ ∃ k v, (k, v) ∈ fs.toList ∧ ReachesBinary v
  | .nil => by simp [hasFilesF, PayloadFields.toList]
  | .cons k v tl => by
      simp only [hasFilesF, Bool.or_eq_true, hasFiles_iff_reachesBinary_aux v,
        hasFilesF_iff_exists_aux tl, PayloadFields.toList, List.mem_cons]
      constructor
      · rintro (hv | ⟨k2, v2, hmem, hv⟩)
        · exact ⟨k, v, Or.inl rfl, hv⟩
        · exact ⟨k2, v2, Or.inr hmem, hv⟩
      · rintro ⟨k2, v2, hmem | hmem, hv⟩
        · cases hmem
          exact Or.inl hv
        · exact Or.inr ⟨k2, v2, hmem, hv⟩
end

/-- Claim C7: for every value, `hasFiles(data)` returns true iff `data` itself
is a binary blob-like value or some recursively reachable element of a list or
mapping inside `data` (arrays, plain objects, `FileList`s, `FormData`s) is
one; it returns false for primitives, `null` and binary-free structures. -/
theorem hasFiles_iff_reachable_binary : ∀ p, hasFiles p = true ↔ ReachesBinary p :=
  hasFiles_iff_reachesBinary_aux

/-! ## The multipart encoder (`src/utils/form-data.ts`) -/

/-- One `FormData` entry as `append` produces it. -/
inductive Entry where
  | str (s : String)
  /-- `form.append(key, file, file.name)`: the binary attached as-is, with its
  filename. -/
  | file (name : String)
  /-- `form.append(key, blob)`: attached as-is. -/
  | blob (id : Nat)
deriving Repr, DecidableEq

/-- `composeKey` (utils/form-data.ts:71-73): `parent` is tested for truthiness,
so both a `null` parent and an empty-string parent yield the bare key;
otherwise the bracketed composition `parent[key]`. -/
def composeKey : Option String → String → String
  | some parent, key => if parent = "" then key else parent ++ "[" ++ key ++ "]"
  | none, key => key

mutual
/-- `objectToFormData` (utils/form-data.ts:54-63): appends each entry of the
source object under the key composed from the parent key; the `FormData`
accumulator is modelled by the ordered list of entries appended. -/
def objectToFormData : Fields → Option String → Except String (List (String × Entry))
  | .nil, _ => .ok []
  | .cons k v tl, parentKey => do
      let e ← append (composeKey parentKey k) v
      let r ← objectToFormData tl parentKey
      return e ++ r

/-- `append` (utils/form-data.ts:81-110), following the `switch (true)` case
order: arrays recurse per element under the key composed with the index; a
`Date` appends its ISO string; a `File` attaches as-is with its name; a `Blob`
attaches as-is; booleans append `"1"`/`"0"`; strings and numbers append their
`toString()`; `null`/`undefined` append the empty string; any remaining object
recurses through `objectToFormData`; anything else — here `BigInt`, whose
`typeof` is matched by no case — throws a `TypeError` naming the offending
key. -/
def append : String → Value → Except String (List (String × Entry))
  | key, .vArr xs => appendIdx key 0 xs
  | key, .vDate iso => .ok [(key, .str iso)]
  | key, .vFile name => .ok [(key, .file name)]
  | key, .vBlob id => .ok [(key, .blob id)]
  | key, .vBool b => .ok [(key, .str (if b then "1" else "0"))]
  | key, .vStr s => .ok [(key, .str s)]
  | key, .vNum n => .ok [(key, .str (toString n))]
  | key, .vNull => .ok [(key, .str "")]
  | key, .vUndef => .ok [(key, .str "")]
  | key, .vObj fs => objectToFormData fs (some key)
  | key, .vBigInt _ => .error ("Unsupported value type: bigint for key: " ++ key)

/-- The array case of `append`:
`value.forEach((item, index) => append(form, composeKey(key, index.toString()), item))`. -/
def appendIdx : String → Nat → ValueList → Except String (List (String × Entry))
  | _, _, .nil => .ok []
  | key, i, .cons v tl => do
      let e ← append (composeKey (some key) (toString i)) v
      let r ← appendIdx key (i + 1) tl
      return e ++ r
end

/-- One composition step of a bracketed key, with the source's
parent-truthiness rule: an empty accumulated key yields the bare segment. -/
def keyStep (acc seg : String) : String :=
  if acc = "" then seg else acc ++ "[" ++ seg ++ "]"

/-- Compose a path of segments onto an accumulated key, step by step. -/
def composeFrom (acc : String) (p : List String) : String :=
  p.foldl keyStep acc

mutual
/-- The leaves of a value, each with the path of segments (field names and
array indices) leading to it; a non-container value is its own single leaf
with the empty path. -/
def specLeaves : Value → List (List String × Value)
  | .vArr xs => specLeavesIdx 0 xs
  | .vObj fs => specLeavesF fs
  | v => [([], v)]

/-- The leaves of an array's elements, paths prefixed with the indices counted
from `i`. -/
def specLeavesIdx : Nat → ValueList → List (List String × Value)
  | _, .nil => []
  | i, .cons v tl =>
      (specLeaves v).map (fun pl => (toString i :: pl.1, pl.2)) ++ specLeavesIdx (i + 1) tl

/-- The leaves of a mapping's values, paths prefixed with the field names. -/
def specLeavesF : Fields → List (List String × Value)
  | .nil => []
  | .cons k v tl => (specLeaves v).map (fun pl => (k :: pl.1, pl.2)) ++ specLeavesF tl
end

/-- Leaf types no `switch` case of the encoder covers: here, `BigInt`. -/
def unsupportedLeaf : Value → Bool
  | .vBigInt _ => true
  | _ => false

/-- The leaf-encoding table of the claim: booleans as `"1"`/`"0"`, dates as
ISO-8601 strings, `null`/`undefined` (the catch-all) as the empty string,
binaries attached as-is, strings and numbers as their text. -/
def specLeafEntry : Value → Entry
  | .vBool b => .str (if b then "1" else "0")
  | .vDate iso => .str iso
  | .vFile name => .file name
  | .vBlob id => .blob id
  | .vStr s => .str s
  | .vNum n => .str (toString n)
  | _ => .str ""

/-- The encoder contract over an explicit leaf list: fail naming the composed
key of the first unsupported leaf, else produce exactly one entry per leaf
under its composed key. -/
def specAppendFrom (key : String) (ls : List (List String × Value)) :
    Except String (List (String × Entry)) :=
  match ls.find? (fun pl => unsupportedLeaf pl.2) with
  | some pl => .error ("Unsupported value type: bigint for key: " ++ composeFrom key pl.1)
  | none => .ok (ls.map (fun pl => (composeFrom key pl.1, specLeafEntry pl.2)))

/-- The encoder contract, phrased as the (amended) claim phrases it: one entry
per leaf of the value, under the composed key. -/
def specAppend (key : String) (v : Value) : Except String (List (String × Entry)) :=
  specAppendFrom key (specLeaves v)

/-- The contract at top level: the accumulated key starts empty, so top-level
field names appear bare. -/
def specEncodeTop (source : Fields) : Except String (List (String × Entry)) :=
  specAppend "" (.vObj source)

/-- Splitting a leaf list splits the contract like the encoder's sequencing:
the first error wins, otherwise the entry lists concatenate. -/
theorem specAppendFrom_append (key : String) (ls1 ls2 : List (List String × Value)) :
    specAppendFrom key (ls1 ++ ls2) = do
      let e ← specAppendFrom key ls1
      let r ← specAppendFrom key ls2
      return e ++ r := by
  unfold specAppendFrom
  rw [List.find?_append]
  cases h1 : ls1.find? (fun pl => unsupportedLeaf pl.2) with
  | some pl => simp [h1, Option.or, Bind.bind, Except.bind]
  | none =>
      cases h2 : ls2.find? (fun pl => unsupportedLeaf pl.2) with
      | some pl => simp [h1, h2, Option.or, Bind.bind, Except.bind]
      | none => simp [h1, h2, Option.or, Bind.bind, Except.bind, pure, Except.pure]

/-- Prefixing every leaf path with a segment is the same as composing that
segment onto the accumulated key first. -/
theorem specAppendFrom_shift (key seg : String) (ls : List (List String × Value)) :
    specAppendFrom key (ls.map (fun pl => (seg :: pl.1, pl.2))) =
      specAppendFrom (keyStep key seg) ls := by
  unfold specAppendFrom
  rw [List.find?_map]
  have hpred : ((fun pl : List String × Value => unsupportedLeaf pl.2) ∘
      fun pl : List String × Value => (seg :: pl.1, pl.2)) =
        fun pl : List String × Value => unsupportedLeaf pl.2 := rfl
  rw [hpred]
  cases h : ls.find? (fun pl => unsupportedLeaf pl.2) with
  | some pl => simp [h, composeFrom]
  | none => simp [h, List.map_map, composeFrom, Function.comp]

/-- `composeKey` is `keyStep` from the accumulated key, a `null` parent acting
as the empty accumulated key. -/
theorem composeKey_eq_keyStep (pk : Option String) (k : String) :
    composeKey pk k = keyStep (pk.getD "") k := by
  cases pk with
  | none => simp [composeKey, keyStep, Option.getD]
  | some s => rfl

mutual
theorem append_eq_specAppend_aux : ∀ (key : String) (v : Value),
    append key v = specAppendFrom key (specLeaves v)
  | key, .vNull => by
      simp [append, specLeaves, specAppendFrom, unsupportedLeaf, specLeafEntry, composeFrom]
  | key, .vUndef => by
      simp [append, specLeaves, specAppendFrom, unsupportedLeaf, specLeafEntry, composeFrom]
  | key, .vBool b => by
      simp [append, specLeaves, specAppendFrom, unsupportedLeaf, specLeafEntry, composeFrom]
  | key, .vNum n => by
      simp [append, specLeaves, specAppendFrom, unsupportedLeaf, specLeafEntry, composeFrom]
  | key, .vStr s => by
      simp [append, specLeaves, specAppendFrom, unsupportedLeaf, specLeafEntry, composeFrom]
  | key, .vDate iso => by
      simp [append, specLeaves, specAppendFrom, unsupportedLeaf, specLeafEntry, composeFrom]
  | key, .vFile name => by
      simp [append, specLeaves, specAppendFrom, unsupportedLeaf, specLeafEntry, composeFrom]
  | key, .vBlob id => by
      simp [append, specLeaves, specAppendFrom, unsupportedLeaf, specLeafEntry, composeFrom]
  | key, .vBigInt n => by
      simp [append, specLeaves, specAppendFrom, unsupportedLeaf, composeFrom]
  | key, .vArr xs => by
      rw [show append key (.vArr xs) = appendIdx key 0 xs from rfl,
        appendIdx_eq_specAppendFrom_aux key 0 xs]
      rfl
  | key, .vObj fs => by
      rw [show append key (.vObj fs) = objectToFormData fs (some key) from rfl,
        objectToFormData_eq_specAppendFrom_aux fs (some key)]
      rfl

theorem objectToFormData_eq_specAppendFrom_aux : ∀ (fs : Fields) (pk : Option String),
    objectToFormData fs pk = specAppendFrom (pk.getD "") (specLeavesF fs)
  | .nil, pk => by simp [objectToFormData, specLeavesF, specAppendFrom, List.find?]
  | .cons k v tl, pk => by
      rw [show objectToFormData (.cons k v tl) pk = (do
            let e ← append (composeKey pk k) v
            let r ← objectToFormData tl pk
            return e ++ r) from rfl]
      rw [append_eq_specAppend_aux (composeKey pk k) v,
        objectToFormData_eq_specAppendFrom_aux tl pk,
        composeKey_eq_keyStep pk k,
        ← specAppendFrom_shift (pk.getD "") k (specLeaves v),
        show specLeavesF (.cons k v tl) =
          (specLeaves v).map (fun pl => (k :: pl.1, pl.2)) ++ specLeavesF tl from rfl,
        specAppendFrom_append]

theorem appendIdx_eq_specAppendFrom_aux : ∀ (key : String) (i : Nat) (xs : ValueList),
    appendIdx key i xs = specAppendFrom key (specLeavesIdx i xs)
  | key, i, .nil => by simp [appendIdx, specLeavesIdx, specAppendFrom, List.find?]
  | key, i, .cons v tl => by
      rw [show appendIdx key i (.cons v tl) = (do
            let e ← append (composeKey (some key) (toString i)) v
            let r ← appendIdx key (i + 1) tl
            return e ++ r) from rfl]
      rw [append_eq_specAppend_aux (composeKey (some key) (toString i)) v,
        appendIdx_eq_specAppendFrom_aux key (i + 1) tl,
        show composeKey (some key) (toString i) = keyStep key (toString i) from rfl,
        ← specAppendFrom_shift key (toString i) (specLeaves v),
        show specLeavesIdx i (.cons v tl) =
          (specLeaves v).map (fun pl => (toString i :: pl.1, pl.2)) ++ specLeavesIdx (i + 1) tl
          from rfl,
        specAppendFrom_append]
end

/-- The composition the claim states: nested keys always compose as
`parent[child]`; only the top-level field name appears bare. -/
def strictComposeTop : List String → String
  | [] => ""
  | k :: rest => rest.foldl (fun acc seg => acc ++ "[" ++ seg ++ "]") k

/-- The claim as stated, at top level: one entry per leaf under the strictly
composed key; an unsupported leaf fails naming the first offending strictly
composed key. -/
def strictSpecEncodeTop (source : Fields) : Except String (List (String × Entry)) :=
  match (specLeavesF source).find? (fun pl => unsupportedLeaf pl.2) with
  | some pl => .error ("Unsupported value type: bigint for key: " ++ strictComposeTop pl.1)
  | none =>
      .ok ((specLeavesF source).map (fun pl => (strictComposeTop pl.1, specLeafEntry pl.2)))

/-- Claim C8 (counterexample): under an empty-string field name the encoder
does not compose nested keys as `parent[child]`: on `{ "": { a: "x" } }` the
produced entry key is the bare `a` — the empty parent key is falsy, so
`composeKey` drops it — while the claim's composition requires `[a]`. -/
theorem objectToFormData_defies_strict_composition :
    objectToFormData (.cons "" (.vObj (.cons "a" (.vStr "x") .nil)) .nil) none ≠
      strictSpecEncodeTop (.cons "" (.vObj (.cons "a" (.vStr "x") .nil)) .nil) := by
  intro h
  have h1 : objectToFormData (.cons "" (.vObj (.cons "a" (.vStr "x") .nil)) .nil) none =
      .ok [("a", Entry.str "x")] := rfl
  have h2 : strictSpecEncodeTop (.cons "" (.vObj (.cons "a" (.vStr "x") .nil)) .nil) =
      .ok [("[a]", Entry.str "x")] := rfl
  rw [h1, h2] at h
  simp at h

/-- Claim C8 (amended): the multipart encoder produces exactly one entry per
leaf, under the key obtained by composing the leaf's path with the source's
parent-truthiness rule — `parent[child]` when the accumulated parent key is
non-empty, the bare `child` when it is empty (at top level, or below an
empty-string field name); boolean leaves encode as `"1"`/`"0"`, `Date` leaves
as ISO-8601 strings, `null`/`undefined` leaves as the empty string, binary
leaves attach as-is, and an unsupported leaf type fails with an error naming
the (first) offending composed key. -/
theorem objectToFormData_meets_amended_contract (source : Fields) :
    objectToFormData source none = specEncodeTop source := by
  rw [objectToFormData_eq_specAppendFrom_aux source none]
  rfl

end Formlink
